import Mathlib

/-!
Verification of the WinGet manifest field enhancer
(`scripts/enhance_winget_fields.py`).

The script reads a manifest file as a list of lines (each line keeps its
trailing newline, as Python `readlines` does), checks that it is an
installer-type manifest, inserts the missing fields `MinimumOSVersion`,
`Platform` and `Commands` at fixed anchor positions, validates the result,
and writes it back.  We embed the pure transformation over `List String`
and model the process outcome (exit code, final file content) explicitly.
-/

namespace EnhanceWinget

open List

/-- Python `l.startswith(p)`, modelled on the character sequences of the
two strings. -/
def startswith (l p : String) : Bool :=
  p.data.isPrefixOf l.data

/-- The character sequence of `"".join(result)`: the concatenation of the
character sequences of the lines. -/
def textOf : List String → List Char
  | [] => []
  | l :: ls => l.data ++ textOf ls

/-- Python `pat in s` on character sequences: `pat` occurs as a contiguous
segment of `s`. -/
def containsSeg (pat : List Char) : List Char → Bool
  | [] => pat.isEmpty
  | c :: rest => pat.isPrefixOf (c :: rest) || containsSeg pat rest

/-- `any(l.startswith("ManifestType: installer") for l in lines)`
(line 26 of the script). -/
def has_manifest_type (lines : List String) : Bool :=
  lines.any (fun l => startswith l "ManifestType: installer")

/-- `has_min_os = any(l.startswith("MinimumOSVersion:") for l in lines)`
(line 34). -/
def has_min_os (lines : List String) : Bool :=
  lines.any (fun l => startswith l "MinimumOSVersion:")

/-- `has_platform = any(l.startswith("Platform:") for l in lines)`
(line 35). -/
def has_platform (lines : List String) : Bool :=
  lines.any (fun l => startswith l "Platform:")

/-- `has_commands = any(l.startswith("Commands:") for l in lines)`
(line 36). -/
def has_commands (lines : List String) : Bool :=
  lines.any (fun l => startswith l "Commands:")

/-- The lines appended right after a `PackageVersion:` anchor line, given
the two presence flags (lines 41-45 of the script). -/
def insAfterPV (a b : Bool) : List String :=
  (if a then [] else ["MinimumOSVersion: 10.0.17763.0\n"]) ++
    (if b then [] else ["Platform:\n", "  - Windows.Desktop\n"])

/-- The lines appended right before an `Installers:` anchor line, given the
`has_commands` flag (lines 48-50 of the script). -/
def insBeforeInstallers (c : Bool) : List String :=
  if c then [] else ["Commands:\n", "  - invowk\n"]

/-- The single forward pass of the script (lines 38-54): `a`, `b`, `c` are
the snapshot flags `has_min_os`, `has_platform`, `has_commands`. -/
def editPass (a b c : Bool) : List String → List String
  | [] => []
  | line :: rest =>
    if startswith line "PackageVersion:" && (!a || !b) then
      line :: (insAfterPV a b ++ editPass a b c rest)
    else if startswith line "Installers:" && !c then
      insBeforeInstallers c ++ (line :: editPass a b c rest)
    else
      line :: editPass a b c rest

/-- The edit pass run with the flags computed from the input lines, as in
the body of `enhance`. -/
def editLines (lines : List String) : List String :=
  editPass (has_min_os lines) (has_platform lines) (has_commands lines) lines

/-- The tuple `("MinimumOSVersion:", "Platform:", "Commands:")` iterated by
the post-edit validation loop (line 58). -/
def requiredFields : List String :=
  ["MinimumOSVersion:", "Platform:", "Commands:"]

/-- Python `field in output_text` where `output_text = "".join(result)`
(lines 57-59). -/
def fieldInText (field : String) (result : List String) : Bool :=
  containsSeg field.data (textOf result)

/-- The first field of the validation loop that is missing from the joined
output text, if any (lines 58-68): the script exits with the error naming
this field. -/
def firstMissingField (result : List String) : Option String :=
  requiredFields.find? (fun field => !fieldInText field result)

/-- The failure modes of `enhance` that depend on the manifest content:
the wrong-manifest-type guard (lines 26-31) and the post-edit validation
failure naming the missing field (lines 56-68). -/
inductive EnhanceError where
  | wrongManifestType : EnhanceError
  | anchorNotFound : String → EnhanceError
  deriving DecidableEq

/-- The content-dependent behaviour of `enhance` (lines 26-68): the type
guard, the edit pass with snapshot flags, and the post-edit validation.
`Except.ok result` means the script reaches the final write with `result`
as the new file content. -/
def enhance (lines : List String) : Except EnhanceError (List String) :=
  if has_manifest_type lines then
    match firstMissingField (editLines lines) with
    | some field => Except.error (EnhanceError.anchorNotFound field)
    | none => Except.ok (editLines lines)
  else
    Except.error EnhanceError.wrongManifestType

/-- Process-level model: the exit code (`sys.exit(1)` on any failure, `0`
implicitly on success) and the final content of the file.  Every
`sys.exit(1)` in `enhance` happens before `open(filepath, "w")`, so on
failure the file keeps its original content; on success the file is
rewritten with the edited lines. -/
def runEnhance (lines : List String) : Nat × List String :=
  match enhance lines with
  | Except.ok result => (0, result)
  | Except.error _ => (1, lines)

/-- Number of lines of `lines` that start with `p`. -/
def countMarker (p : String) (lines : List String) : Nat :=
  lines.countP (fun l => startswith l p)

theorem startswith_iff {l p : String} :
    startswith l p = true ↔ p.data <+: l.data := by
  simp [startswith]

theorem startswith_pv_not_installers {l : String}
    (h : startswith l "PackageVersion:" = true) :
    startswith l "Installers:" = false := by
  cases hI : startswith l "Installers:"
  · rfl
  · exfalso
    rw [startswith_iff] at h hI
    rcases List.prefix_or_prefix_of_prefix h hI with hh | hh
    · exact absurd hh (by decide)
    · exact absurd hh (by decide)

theorem startswith_installers_not_pv {l : String}
    (h : startswith l "Installers:" = true) :
    startswith l "PackageVersion:" = false := by
  cases hpv : startswith l "PackageVersion:"
  · rfl
  · exact absurd h (by simp [startswith_pv_not_installers hpv])

theorem editPass_cons_pv (a b c : Bool) {line : String} (rest : List String)
    (h : startswith line "PackageVersion:" = true) :
    editPass a b c (line :: rest) =
      line :: (insAfterPV a b ++ editPass a b c rest) := by
  cases a <;> cases b <;>
    simp [editPass, h, startswith_pv_not_installers h, insAfterPV]

theorem editPass_cons_installers (a b c : Bool) {line : String}
    (rest : List String) (h : startswith line "Installers:" = true) :
    editPass a b c (line :: rest) =
      insBeforeInstallers c ++ (line :: editPass a b c rest) := by
  cases hc : c
  · simp [editPass, startswith_installers_not_pv h, h, hc, insBeforeInstallers]
  · simp [editPass, startswith_installers_not_pv h, h, hc, insBeforeInstallers]

theorem editPass_cons_other (a b c : Bool) {line : String} (rest : List String)
    (h1 : startswith line "PackageVersion:" = false)
    (h2 : startswith line "Installers:" = false) :
    editPass a b c (line :: rest) = line :: editPass a b c rest := by
  simp [editPass, h1, h2]

theorem editPass_append (a b c : Bool) (xs ys : List String) :
    editPass a b c (xs ++ ys) = editPass a b c xs ++ editPass a b c ys := by
  induction xs with
  | nil => simp [editPass]
  | cons l rest ih =>
    cases hpv : startswith l "PackageVersion:"
    · cases hI : startswith l "Installers:"
      · rw [List.cons_append, editPass_cons_other a b c (rest ++ ys) hpv hI,
          editPass_cons_other a b c rest hpv hI, ih, List.cons_append]
      · rw [List.cons_append, editPass_cons_installers a b c (rest ++ ys) hI,
          editPass_cons_installers a b c rest hI, ih]
        simp
    · rw [List.cons_append, editPass_cons_pv a b c (rest ++ ys) hpv,
        editPass_cons_pv a b c rest hpv, ih]
      simp

theorem countMarker_cons (p : String) (l : String) (rest : List String) :
    countMarker p (l :: rest) =
      countMarker p rest + if startswith l p then 1 else 0 := by
  simp [countMarker, List.countP_cons]

theorem countMarker_cons_pos {p l : String} (rest : List String)
    (h : startswith l p = true) :
    countMarker p (l :: rest) = countMarker p rest + 1 := by
  rw [countMarker_cons, h]; rfl

theorem countMarker_cons_neg {p l : String} (rest : List String)
    (h : startswith l p = false) :
    countMarker p (l :: rest) = countMarker p rest := by
  rw [countMarker_cons, h]; rfl

theorem countMarker_append (p : String) (xs ys : List String) :
    countMarker p (xs ++ ys) = countMarker p xs + countMarker p ys := by
  simp [countMarker]

theorem any_iff_countMarker {p : String} {ls : List String} :
    ls.any (fun l => startswith l p) = true ↔ 0 < countMarker p ls := by
  rw [countMarker, List.countP_pos_iff, List.any_eq_true]

theorem countMarker_editPass (p : String) (a b c : Bool) (ls : List String) :
    countMarker p (editPass a b c ls) =
      countMarker p ls
        + countMarker "PackageVersion:" ls * countMarker p (insAfterPV a b)
        + countMarker "Installers:" ls * countMarker p (insBeforeInstallers c) := by
  induction ls with
  | nil => simp [editPass, countMarker]
  | cons l rest ih =>
    cases hpv : startswith l "PackageVersion:"
    · cases hI : startswith l "Installers:"
      · rw [editPass_cons_other a b c rest hpv hI, countMarker_cons,
          countMarker_cons p l rest, countMarker_cons_neg rest hpv,
          countMarker_cons_neg rest hI, ih]
        ring
      · rw [editPass_cons_installers a b c rest hI, countMarker_append,
          countMarker_cons, countMarker_cons p l rest,
          countMarker_cons_neg rest hpv, countMarker_cons_pos rest hI, ih]
        ring
    · rw [editPass_cons_pv a b c rest hpv, countMarker_cons,
        countMarker_append, countMarker_cons p l rest,
        countMarker_cons_pos rest hpv,
        countMarker_cons_neg rest (startswith_pv_not_installers hpv), ih]
      ring

theorem mem_insAfterPV {a b : Bool} {x : String} (h : x ∈ insAfterPV a b) :
    x = "MinimumOSVersion: 10.0.17763.0\n" ∨ x = "Platform:\n" ∨
      x = "  - Windows.Desktop\n" := by
  cases a <;> cases b <;> simp [insAfterPV] at h <;> tauto

theorem mem_insBeforeInstallers {c : Bool} {x : String}
    (h : x ∈ insBeforeInstallers c) :
    x = "Commands:\n" ∨ x = "  - invowk\n" := by
  cases c
  · simp [insBeforeInstallers] at h
    tauto
  · simp [insBeforeInstallers] at h

theorem mem_editPass {a b c : Bool} {ls : List String} {x : String}
    (h : x ∈ editPass a b c ls) :
    x ∈ ls ∨ x ∈ insAfterPV a b ∨ x ∈ insBeforeInstallers c := by
  induction ls with
  | nil => simp [editPass] at h
  | cons l rest ih =>
    cases hpv : startswith l "PackageVersion:"
    · cases hI : startswith l "Installers:"
      · rw [editPass_cons_other a b c rest hpv hI] at h
        rcases List.mem_cons.mp h with rfl | hmem
        · exact Or.inl (List.mem_cons_self _ _)
        · rcases ih hmem with hm | hm
          · exact Or.inl (List.mem_cons_of_mem _ hm)
          · exact Or.inr hm
      · rw [editPass_cons_installers a b c rest hI] at h
        rcases List.mem_append.mp h with hm | hm
        · exact Or.inr (Or.inr hm)
        · rcases List.mem_cons.mp hm with rfl | hmem
          · exact Or.inl (List.mem_cons_self _ _)
          · rcases ih hmem with hm2 | hm2
            · exact Or.inl (List.mem_cons_of_mem _ hm2)
            · exact Or.inr hm2
    · rw [editPass_cons_pv a b c rest hpv] at h
      rcases List.mem_cons.mp h with rfl | hmem
      · exact Or.inl (List.mem_cons_self _ _)
      · rcases List.mem_append.mp hmem with hm | hm
        · exact Or.inr (Or.inl hm)
        · rcases ih hm with hm2 | hm2
          · exact Or.inl (List.mem_cons_of_mem _ hm2)
          · exact Or.inr hm2

theorem sublist_editPass (a b c : Bool) (ls : List String) :
    ls <+ editPass a b c ls := by
  induction ls with
  | nil => simp [editPass]
  | cons l rest ih =>
    cases hpv : startswith l "PackageVersion:"
    · cases hI : startswith l "Installers:"
      · rw [editPass_cons_other a b c rest hpv hI]
        exact ih.cons₂ l
      · rw [editPass_cons_installers a b c rest hI]
        exact (ih.cons₂ l).trans
          (List.sublist_append_right (insBeforeInstallers c) _)
    · rw [editPass_cons_pv a b c rest hpv]
      exact (ih.trans (List.sublist_append_right (insAfterPV a b) _)).cons₂ l

theorem editPass_noop {a b c : Bool} {ls : List String}
    (hPV : ∀ l ∈ ls, startswith l "PackageVersion:" = true →
      a = true ∧ b = true)
    (hIn : ∀ l ∈ ls, startswith l "Installers:" = true → c = true) :
    editPass a b c ls = ls := by
  induction ls with
  | nil => rfl
  | cons l rest ih =>
    have hrec := ih (fun x hx => hPV x (List.mem_cons_of_mem _ hx))
      (fun x hx => hIn x (List.mem_cons_of_mem _ hx))
    cases hpv : startswith l "PackageVersion:"
    · cases hI : startswith l "Installers:"
      · rw [editPass_cons_other a b c rest hpv hI, hrec]
      · have hc := hIn l (List.mem_cons_self _ _) hI
        rw [editPass_cons_installers a b c rest hI, hrec, hc]
        simp [insBeforeInstallers]
    · obtain ⟨ha, hb⟩ := hPV l (List.mem_cons_self _ _) hpv
      rw [editPass_cons_pv a b c rest hpv, hrec, ha, hb]
      simp [insAfterPV]

theorem containsSeg_iff {pat s : List Char} :
    containsSeg pat s = true ↔ pat <:+: s := by
  induction s with
  | nil => simp [containsSeg, List.isEmpty_iff]
  | cons c rest ih => simp [containsSeg, List.infix_cons_iff, ih]

theorem fieldInText_iff {field : String} {result : List String} :
    fieldInText field result = true ↔ field.data <:+: textOf result := by
  rw [fieldInText, containsSeg_iff]

theorem textOf_cons (l : String) (ls : List String) :
    textOf (l :: ls) = l.data ++ textOf ls := rfl

theorem infix_textOf_of_mem {p l : String} {ls : List String}
    (hl : l ∈ ls) (hp : startswith l p = true) :
    p.data <:+: textOf ls := by
  induction ls with
  | nil => cases hl
  | cons x rest ih =>
    rw [textOf_cons]
    rcases List.mem_cons.mp hl with rfl | hmem
    · exact ((startswith_iff.mp hp).trans (List.prefix_append _ _)).isInfix
    · exact (ih hmem).trans (List.suffix_append _ _).isInfix

theorem infix_append_split {p s t : List Char}
    (hnl : ('\n') ∉ p) (hs : s.getLast? = some '\n') (h : p <:+: s ++ t) :
    p <:+: s ∨ p <:+: t := by
  obtain ⟨u, v, huv⟩ := h
  rw [List.append_assoc] at huv
  rcases List.append_eq_append_iff.mp huv with ⟨w, hw1, hw2⟩ | ⟨w, hw1, hw2⟩
  · rcases List.append_eq_append_iff.mp hw2 with ⟨x, hx1, hx2⟩ | ⟨x, hx1, hx2⟩
    · left
      exact ⟨u, x, by rw [hw1, hx1, List.append_assoc]⟩
    · rcases eq_or_ne w [] with rfl | hwne
      · right
        exact ⟨[], v, by simp [hx2, hx1]⟩
      · exfalso
        have hwlast : w.getLast? = some '\n' := by
          rw [hw1, List.getLast?_append] at hs
          obtain ⟨z, hz⟩ := Option.isSome_iff_exists.mp
            (List.getLast?_isSome.mpr hwne)
          rw [hz] at hs ⊢
          simpa [Option.or] using hs
        have hmem : ('\n') ∈ w :=
          List.mem_of_mem_getLast? (Option.mem_def.mpr hwlast)
        exact hnl (by rw [hx1]; exact List.mem_append_left x hmem)
  · right
    exact ⟨w, v, by rw [hw2, List.append_assoc]⟩

theorem not_infix_textOf {p : List Char} (hnl : ('\n') ∉ p) (hne : p ≠ [])
    {ls : List String} (hend : ∀ l ∈ ls, l.data.getLast? = some '\n')
    (hno : ∀ l ∈ ls, ¬ p <:+: l.data) :
    ¬ p <:+: textOf ls := by
  induction ls with
  | nil =>
    intro h
    exact hne (List.infix_nil.mp h)
  | cons x rest ih =>
    intro h
    rw [textOf_cons] at h
    rcases infix_append_split hnl (hend x (List.mem_cons_self _ _)) h with
      h1 | h2
    · exact hno x (List.mem_cons_self _ _) h1
    · exact ih (fun l hl => hend l (List.mem_cons_of_mem _ hl))
        (fun l hl => hno l (List.mem_cons_of_mem _ hl)) h2

theorem has_min_os_iff {ls : List String} :
    has_min_os ls = true ↔ 0 < countMarker "MinimumOSVersion:" ls := by
  unfold has_min_os; exact any_iff_countMarker

theorem has_platform_iff {ls : List String} :
    has_platform ls = true ↔ 0 < countMarker "Platform:" ls := by
  unfold has_platform; exact any_iff_countMarker

theorem has_commands_iff {ls : List String} :
    has_commands ls = true ↔ 0 < countMarker "Commands:" ls := by
  unfold has_commands; exact any_iff_countMarker

theorem count_minOS_editPass (a b c : Bool) (ls : List String) :
    countMarker "MinimumOSVersion:" (editPass a b c ls) =
      countMarker "MinimumOSVersion:" ls +
        countMarker "PackageVersion:" ls * (if a then 0 else 1) := by
  have h1 : countMarker "MinimumOSVersion:" (insAfterPV a b) =
      if a then 0 else 1 := by cases a <;> cases b <;> decide
  have h2 : countMarker "MinimumOSVersion:" (insBeforeInstallers c) = 0 := by
    cases c <;> decide
  rw [countMarker_editPass, h1, h2]; ring

theorem count_platform_editPass (a b c : Bool) (ls : List String) :
    countMarker "Platform:" (editPass a b c ls) =
      countMarker "Platform:" ls +
        countMarker "PackageVersion:" ls * (if b then 0 else 1) := by
  have h1 : countMarker "Platform:" (insAfterPV a b) = if b then 0 else 1 := by
    cases a <;> cases b <;> decide
  have h2 : countMarker "Platform:" (insBeforeInstallers c) = 0 := by
    cases c <;> decide
  rw [countMarker_editPass, h1, h2]; ring

theorem count_commands_editPass (a b c : Bool) (ls : List String) :
    countMarker "Commands:" (editPass a b c ls) =
      countMarker "Commands:" ls +
        countMarker "Installers:" ls * (if c then 0 else 1) := by
  have h1 : countMarker "Commands:" (insAfterPV a b) = 0 := by
    cases a <;> cases b <;> decide
  have h2 : countMarker "Commands:" (insBeforeInstallers c) =
      if c then 0 else 1 := by cases c <;> decide
  rw [countMarker_editPass, h1, h2]; ring

theorem count_pv_editPass (a b c : Bool) (ls : List String) :
    countMarker "PackageVersion:" (editPass a b c ls) =
      countMarker "PackageVersion:" ls := by
  have h1 : countMarker "PackageVersion:" (insAfterPV a b) = 0 := by
    cases a <;> cases b <;> decide
  have h2 : countMarker "PackageVersion:" (insBeforeInstallers c) = 0 := by
    cases c <;> decide
  rw [countMarker_editPass, h1, h2]; ring

theorem count_inst_editPass (a b c : Bool) (ls : List String) :
    countMarker "Installers:" (editPass a b c ls) =
      countMarker "Installers:" ls := by
  have h1 : countMarker "Installers:" (insAfterPV a b) = 0 := by
    cases a <;> cases b <;> decide
  have h2 : countMarker "Installers:" (insBeforeInstallers c) = 0 := by
    cases c <;> decide
  rw [countMarker_editPass, h1, h2]; ring

theorem enhance_ok_elim {lines out : List String}
    (h : enhance lines = Except.ok out) :
    has_manifest_type lines = true ∧ out = editLines lines ∧
      firstMissingField (editLines lines) = none := by
  unfold enhance at h
  by_cases ht : has_manifest_type lines = true
  · rw [if_pos ht] at h
    cases hfm : firstMissingField (editLines lines) with
    | some f => rw [hfm] at h; simp at h
    | none =>
      rw [hfm] at h
      simp only [Except.ok.injEq] at h
      exact ⟨ht, h.symm, rfl⟩
  · rw [if_neg ht] at h
    simp at h

theorem enhance_ok_intro {lines : List String}
    (ht : has_manifest_type lines = true)
    (hv : firstMissingField (editLines lines) = none) :
    enhance lines = Except.ok (editLines lines) := by
  unfold enhance
  rw [if_pos ht, hv]

theorem firstMissingField_eq_none {result : List String} :
    firstMissingField result = none ↔
      ∀ field ∈ requiredFields, fieldInText field result = true := by
  rw [firstMissingField, List.find?_eq_none]
  simp

theorem firstMissingField_none_of_marks {result : List String}
    (h1 : has_min_os result = true) (h2 : has_platform result = true)
    (h3 : has_commands result = true) :
    firstMissingField result = none := by
  rw [firstMissingField_eq_none]
  intro field hf
  rcases show field = "MinimumOSVersion:" ∨ field = "Platform:" ∨
      field = "Commands:" by simpa [requiredFields] using hf with rfl | rfl | rfl
  · obtain ⟨l, hl, hp⟩ := List.any_eq_true.mp h1
    exact fieldInText_iff.mpr (infix_textOf_of_mem hl hp)
  · obtain ⟨l, hl, hp⟩ := List.any_eq_true.mp h2
    exact fieldInText_iff.mpr (infix_textOf_of_mem hl hp)
  · obtain ⟨l, hl, hp⟩ := List.any_eq_true.mp h3
    exact fieldInText_iff.mpr (infix_textOf_of_mem hl hp)

theorem flags_out_pv {ls : List String}
    (hpv : 0 < countMarker "PackageVersion:" ls) :
    has_min_os (editLines ls) = true ∧ has_platform (editLines ls) = true := by
  constructor
  · rw [has_min_os_iff]
    unfold editLines
    rw [count_minOS_editPass]
    cases ha : has_min_os ls
    · simp only [if_neg Bool.false_ne_true, Nat.mul_one]
      omega
    · have := has_min_os_iff.mp ha
      omega
  · rw [has_platform_iff]
    unfold editLines
    rw [count_platform_editPass]
    cases hb : has_platform ls
    · simp only [if_neg Bool.false_ne_true, Nat.mul_one]
      omega
    · have := has_platform_iff.mp hb
      omega

theorem flags_out_inst {ls : List String}
    (hin : 0 < countMarker "Installers:" ls) :
    has_commands (editLines ls) = true := by
  rw [has_commands_iff]
  unfold editLines
  rw [count_commands_editPass]
  cases hc : has_commands ls
  · simp only [if_neg Bool.false_ne_true, Nat.mul_one]
    omega
  · have := has_commands_iff.mp hc
    omega

theorem editLines_noop {ls : List String}
    (hPV : ∀ l ∈ ls, startswith l "PackageVersion:" = true →
      has_min_os ls = true ∧ has_platform ls = true)
    (hIn : ∀ l ∈ ls, startswith l "Installers:" = true →
      has_commands ls = true) :
    editLines ls = ls := by
  unfold editLines
  exact editPass_noop hPV hIn

theorem mem_editPass_no_pv {a b c : Bool} {ls : List String} {x : String}
    (hpv : ∀ l ∈ ls, startswith l "PackageVersion:" = false)
    (h : x ∈ editPass a b c ls) :
    x ∈ ls ∨ x ∈ insBeforeInstallers c := by
  induction ls with
  | nil => simp [editPass] at h
  | cons l rest ih =>
    have hrec := ih (fun y hy => hpv y (List.mem_cons_of_mem _ hy))
    have hl : startswith l "PackageVersion:" = false :=
      hpv l (List.mem_cons_self _ _)
    cases hI : startswith l "Installers:"
    · rw [editPass_cons_other a b c rest hl hI] at h
      rcases List.mem_cons.mp h with rfl | hmem
      · exact Or.inl (List.mem_cons_self _ _)
      · rcases hrec hmem with hm | hm
        · exact Or.inl (List.mem_cons_of_mem _ hm)
        · exact Or.inr hm
    · rw [editPass_cons_installers a b c rest hI] at h
      rcases List.mem_append.mp h with hm | hm
      · exact Or.inr hm
      · rcases List.mem_cons.mp hm with rfl | hmem
        · exact Or.inl (List.mem_cons_self _ _)
        · rcases hrec hmem with hm2 | hm2
          · exact Or.inl (List.mem_cons_of_mem _ hm2)
          · exact Or.inr hm2

/-! Claim theorems. -/

/-- C3: for every input file whose lines contain no line starting with
`ManifestType: installer`, `enhance` fails with the wrong-manifest-type
error, the process exits with a non-zero status, and the file content is
left unmodified (no write occurs). -/
theorem type_guard {lines : List String}
    (h : has_manifest_type lines = false) :
    enhance lines = Except.error EnhanceError.wrongManifestType ∧
      runEnhance lines = (1, lines) := by
  have he : enhance lines = Except.error EnhanceError.wrongManifestType := by
    unfold enhance
    rw [if_neg (by simp [h])]
  exact ⟨he, by unfold runEnhance; rw [he]⟩

theorem type_guard_witness :
    enhance ["PackageVersion: 1.0\n", "Installers:\n"] =
        Except.error EnhanceError.wrongManifestType ∧
      runEnhance ["PackageVersion: 1.0\n", "Installers:\n"] =
        (1, ["PackageVersion: 1.0\n", "Installers:\n"]) :=
  type_guard (by decide)

/-- C8: the output consists of exactly the original lines, unchanged and in
their original relative order (the input is a sublist of the output, so
removing the lines inserted at the anchor points recovers the original
content), and every output line is either an original line or one of the
five literal inserted lines. -/
theorem frame_property (lines : List String) :
    lines <+ editLines lines ∧
      (editLines lines).all
        (fun l => lines.contains l ||
          ["MinimumOSVersion: 10.0.17763.0\n", "Platform:\n",
            "  - Windows.Desktop\n", "Commands:\n",
            "  - invowk\n"].contains l) = true := by
  refine ⟨sublist_editPass _ _ _ lines, ?_⟩
  rw [List.all_eq_true]
  intro l hl
  rw [Bool.or_eq_true]
  rcases mem_editPass hl with hm | hm | hm
  · exact Or.inl (List.elem_iff.mpr hm)
  · rcases mem_insAfterPV hm with rfl | rfl | rfl <;>
      exact Or.inr (by decide)
  · rcases mem_insBeforeInstallers hm with rfl | rfl <;>
      exact Or.inr (by decide)

/-- C4: the inserted `MinimumOSVersion: 10.0.17763.0` line and the two-line
`Platform:` block (each inserted exactly when its presence flag is off)
appear immediately after a line starting with `PackageVersion:`, and the
inserted two-line `Commands:` block appears immediately before a line
starting with `Installers:`. -/
theorem insertion_position (a b c : Bool) (pre mid post : List String)
    (pv inst : String)
    (hpv : startswith pv "PackageVersion:" = true)
    (hinst : startswith inst "Installers:" = true) :
    editPass a b c (pre ++ pv :: (mid ++ inst :: post)) =
      editPass a b c pre ++ pv :: (insAfterPV a b ++
        (editPass a b c mid ++ (insBeforeInstallers c ++
          inst :: editPass a b c post))) := by
  rw [editPass_append a b c pre, editPass_cons_pv a b c _ hpv,
    editPass_append a b c mid, editPass_cons_installers a b c post hinst]

theorem insertion_position_witness :
    editPass false false false
        (["ManifestType: installer\n"] ++ "PackageVersion: 1.2.3\n" ::
          (["ReleaseDate: 2026-01-01\n"] ++ "Installers:\n" ::
            ["- Arch: x64\n"])) =
      editPass false false false ["ManifestType: installer\n"] ++
        "PackageVersion: 1.2.3\n" :: (insAfterPV false false ++
          (editPass false false false ["ReleaseDate: 2026-01-01\n"] ++
            (insBeforeInstallers false ++
              "Installers:\n" ::
                editPass false false false ["- Arch: x64\n"]))) :=
  insertion_position false false false ["ManifestType: installer\n"]
    ["ReleaseDate: 2026-01-01\n"] ["- Arch: x64\n"]
    "PackageVersion: 1.2.3\n" "Installers:\n" (by decide) (by decide)

/-- C6: if a `MinimumOSVersion:` line already exists but no `Platform:` line
does, only the `Platform:` block is inserted after the `PackageVersion:`
anchor and no second `MinimumOSVersion:` line appears; moreover a field
already present is never inserted again (`Commands:` analogue included). -/
theorem selective_insertion {lines : List String} (pre post : List String)
    (pv : String) (hsplit : lines = pre ++ pv :: post)
    (hpv : startswith pv "PackageVersion:" = true)
    (ha : has_min_os lines = true) (hb : has_platform lines = false) :
    editLines lines =
      editPass true false (has_commands lines) pre ++
        pv :: "Platform:\n" :: "  - Windows.Desktop\n" ::
          editPass true false (has_commands lines) post ∧
      countMarker "MinimumOSVersion:" (editLines lines) =
        countMarker "MinimumOSVersion:" lines ∧
      (has_commands lines = true →
        countMarker "Commands:" (editLines lines) =
          countMarker "Commands:" lines) := by
  refine ⟨?_, ?_, ?_⟩
  · unfold editLines
    rw [ha, hb]
    rw [hsplit, editPass_append, editPass_cons_pv true false _ post hpv]
    simp [insAfterPV]
  · unfold editLines
    rw [count_minOS_editPass, ha]
    simp
  · intro hc
    unfold editLines
    rw [count_commands_editPass, hc]
    simp

theorem selective_insertion_witness :
    editLines ["ManifestType: installer\n", "PackageVersion: 2.0\n",
        "MinimumOSVersion: 10.0.10240.0\n", "Commands:\n", "  - invowk\n"] =
      editPass true false true ["ManifestType: installer\n"] ++
        "PackageVersion: 2.0\n" :: "Platform:\n" ::
          "  - Windows.Desktop\n" ::
            editPass true false true
              ["MinimumOSVersion: 10.0.10240.0\n", "Commands:\n",
                "  - invowk\n"] ∧
      countMarker "MinimumOSVersion:"
          (editLines ["ManifestType: installer\n", "PackageVersion: 2.0\n",
            "MinimumOSVersion: 10.0.10240.0\n", "Commands:\n",
            "  - invowk\n"]) =
        countMarker "MinimumOSVersion:"
          ["ManifestType: installer\n", "PackageVersion: 2.0\n",
            "MinimumOSVersion: 10.0.10240.0\n", "Commands:\n",
            "  - invowk\n"] ∧
      (has_commands ["ManifestType: installer\n", "PackageVersion: 2.0\n",
          "MinimumOSVersion: 10.0.10240.0\n", "Commands:\n",
          "  - invowk\n"] = true →
        countMarker "Commands:"
            (editLines ["ManifestType: installer\n", "PackageVersion: 2.0\n",
              "MinimumOSVersion: 10.0.10240.0\n", "Commands:\n",
              "  - invowk\n"]) =
          countMarker "Commands:"
            ["ManifestType: installer\n", "PackageVersion: 2.0\n",
              "MinimumOSVersion: 10.0.10240.0\n", "Commands:\n",
              "  - invowk\n"]) :=
  selective_insertion ["ManifestType: installer\n"]
    ["MinimumOSVersion: 10.0.10240.0\n", "Commands:\n", "  - invowk\n"]
    "PackageVersion: 2.0\n" rfl (by decide) (by decide) (by decide)

/-- C2: the transformation is idempotent: whenever `enhance` succeeds and
produces the output `out` (the content that gets written back), running
`enhance` on `out` succeeds and reproduces `out` unchanged, byte for
byte. -/
theorem enhance_idempotent {lines out : List String}
    (h : enhance lines = Except.ok out) :
    enhance out = Except.ok out := by
  obtain ⟨ht, rfl, hv⟩ := enhance_ok_elim h
  have hnoop : editLines (editLines lines) = editLines lines := by
    apply editLines_noop
    · intro l hl hls
      have hpos : 0 < countMarker "PackageVersion:" lines := by
        have h1 : 0 < countMarker "PackageVersion:" (editLines lines) := by
          rw [countMarker, List.countP_pos_iff]
          exact ⟨l, hl, hls⟩
        rwa [editLines, count_pv_editPass] at h1
      exact flags_out_pv hpos
    · intro l hl hls
      have hpos : 0 < countMarker "Installers:" lines := by
        have h1 : 0 < countMarker "Installers:" (editLines lines) := by
          rw [countMarker, List.countP_pos_iff]
          exact ⟨l, hl, hls⟩
        rwa [editLines, count_inst_editPass] at h1
      exact flags_out_inst hpos
  have ht2 : has_manifest_type (editLines lines) = true := by
    obtain ⟨l, hl, hp⟩ := List.any_eq_true.mp ht
    exact List.any_eq_true.mpr
      ⟨l, (sublist_editPass _ _ _ lines).subset hl, hp⟩
  have happ := enhance_ok_intro ht2 (by rw [hnoop]; exact hv)
  rwa [hnoop] at happ

theorem enhance_idempotent_witness :
    enhance ["ManifestType: installer\n", "PackageVersion: 1.2.3\n",
        "MinimumOSVersion: 10.0.17763.0\n", "Platform:\n",
        "  - Windows.Desktop\n", "Commands:\n", "  - invowk\n",
        "Installers:\n", "- Arch: x64\n"] =
      Except.ok ["ManifestType: installer\n", "PackageVersion: 1.2.3\n",
        "MinimumOSVersion: 10.0.17763.0\n", "Platform:\n",
        "  - Windows.Desktop\n", "Commands:\n", "  - invowk\n",
        "Installers:\n", "- Arch: x64\n"] :=
  @enhance_idempotent
    ["ManifestType: installer\n", "PackageVersion: 1.2.3\n",
      "Installers:\n", "- Arch: x64\n"]
    ["ManifestType: installer\n", "PackageVersion: 1.2.3\n",
      "MinimumOSVersion: 10.0.17763.0\n", "Platform:\n",
      "  - Windows.Desktop\n", "Commands:\n", "  - invowk\n",
      "Installers:\n", "- Arch: x64\n"]
    (by rfl)

/-- C9 (implicit): when a field is absent, its lines are inserted next to
every occurrence of the corresponding anchor, so inputs with several
`PackageVersion:` (resp. `Installers:`) lines receive one inserted block
per anchor occurrence — the at-most-one-anchor assumption is not
enforced. -/
theorem duplicate_insertion (a b c : Bool)
    (pre mid post pre2 mid2 post2 : List String) (x y v w : String)
    (hx : startswith x "PackageVersion:" = true)
    (hy : startswith y "PackageVersion:" = true)
    (hv : startswith v "Installers:" = true)
    (hw : startswith w "Installers:" = true) :
    (editPass false b c (pre ++ x :: (mid ++ y :: post)) =
      editPass false b c pre ++ x :: (insAfterPV false b ++
        (editPass false b c mid ++ y :: (insAfterPV false b ++
          editPass false b c post))) ∧
      "MinimumOSVersion: 10.0.17763.0\n" ∈ insAfterPV false b) ∧
    (editPass a b false (pre2 ++ v :: (mid2 ++ w :: post2)) =
      editPass a b false pre2 ++ (insBeforeInstallers false ++
        (v :: (editPass a b false mid2 ++ (insBeforeInstallers false ++
          w :: editPass a b false post2)))) ∧
      "Commands:\n" ∈ insBeforeInstallers false) := by
  constructor
  · constructor
    · rw [editPass_append false b c pre, editPass_cons_pv false b c _ hx,
        editPass_append false b c mid, editPass_cons_pv false b c post hy]
    · cases b <;> simp [insAfterPV]
  · constructor
    · rw [editPass_append a b false pre2,
        editPass_cons_installers a b false _ hv,
        editPass_append a b false mid2,
        editPass_cons_installers a b false post2 hw]
    · simp [insBeforeInstallers]

theorem duplicate_insertion_witness :
    (editPass false false false
        (["ManifestType: installer\n"] ++ "PackageVersion: 1\n" ::
          ([] ++ "PackageVersion: 2\n" :: [])) =
      editPass false false false ["ManifestType: installer\n"] ++
        "PackageVersion: 1\n" :: (insAfterPV false false ++
          (editPass false false false [] ++ "PackageVersion: 2\n" ::
            (insAfterPV false false ++ editPass false false false []))) ∧
      "MinimumOSVersion: 10.0.17763.0\n" ∈ insAfterPV false false) ∧
    (editPass false false false
        (["ManifestType: installer\n"] ++ "Installers:\n" ::
          ([] ++ "Installers: second\n" :: [])) =
      editPass false false false ["ManifestType: installer\n"] ++
        (insBeforeInstallers false ++ ("Installers:\n" ::
          (editPass false false false [] ++ (insBeforeInstallers false ++
            "Installers: second\n" :: editPass false false false [])))) ∧
      "Commands:\n" ∈ insBeforeInstallers false) :=
  duplicate_insertion false false false ["ManifestType: installer\n"] [] []
    ["ManifestType: installer\n"] [] [] "PackageVersion: 1\n"
    "PackageVersion: 2\n" "Installers:\n" "Installers: second\n"
    (by decide) (by decide) (by decide) (by decide)

/-- C1, counterexample: a manifest with a `ManifestType: installer` line and
both anchor lines, but with two pre-existing `MinimumOSVersion:` lines,
satisfies the claim's hypotheses, yet the output of `enhance` contains the
`MinimumOSVersion:` marker twice, not exactly once. -/
theorem completeness_counterexample :
    (has_manifest_type ["ManifestType: installer\n",
        "PackageVersion: 1.2.3\n", "MinimumOSVersion: 6.1\n",
        "MinimumOSVersion: 6.2\n", "Installers:\n"] = true ∧
      0 < countMarker "PackageVersion:" ["ManifestType: installer\n",
        "PackageVersion: 1.2.3\n", "MinimumOSVersion: 6.1\n",
        "MinimumOSVersion: 6.2\n", "Installers:\n"] ∧
      0 < countMarker "Installers:" ["ManifestType: installer\n",
        "PackageVersion: 1.2.3\n", "MinimumOSVersion: 6.1\n",
        "MinimumOSVersion: 6.2\n", "Installers:\n"]) ∧
    enhance ["ManifestType: installer\n", "PackageVersion: 1.2.3\n",
        "MinimumOSVersion: 6.1\n", "MinimumOSVersion: 6.2\n",
        "Installers:\n"] =
      Except.ok ["ManifestType: installer\n", "PackageVersion: 1.2.3\n",
        "Platform:\n", "  - Windows.Desktop\n", "MinimumOSVersion: 6.1\n",
        "MinimumOSVersion: 6.2\n", "Commands:\n", "  - invowk\n",
        "Installers:\n"] ∧
    countMarker "MinimumOSVersion:" ["ManifestType: installer\n",
        "PackageVersion: 1.2.3\n", "Platform:\n", "  - Windows.Desktop\n",
        "MinimumOSVersion: 6.1\n", "MinimumOSVersion: 6.2\n",
        "Commands:\n", "  - invowk\n", "Installers:\n"] = 2 :=
  ⟨⟨by decide, by decide, by decide⟩, by rfl, by decide⟩

/-- C1, amended: for any installer manifest that contains exactly one
`PackageVersion:` line and exactly one `Installers:` line and in which each
of the three field markers occurs at most once as a line prefix, `enhance`
succeeds and its output contains each of `MinimumOSVersion:`, `Platform:`
and `Commands:` exactly once as a line prefix. -/
theorem completeness_amended {lines : List String}
    (ht : has_manifest_type lines = true)
    (hPV : countMarker "PackageVersion:" lines = 1)
    (hIn : countMarker "Installers:" lines = 1)
    (h1 : countMarker "MinimumOSVersion:" lines ≤ 1)
    (h2 : countMarker "Platform:" lines ≤ 1)
    (h3 : countMarker "Commands:" lines ≤ 1) :
    enhance lines = Except.ok (editLines lines) ∧
      countMarker "MinimumOSVersion:" (editLines lines) = 1 ∧
      countMarker "Platform:" (editLines lines) = 1 ∧
      countMarker "Commands:" (editLines lines) = 1 := by
  have hpvpos : 0 < countMarker "PackageVersion:" lines := by omega
  have hinpos : 0 < countMarker "Installers:" lines := by omega
  obtain ⟨hmo, hpl⟩ := flags_out_pv hpvpos
  have hco := flags_out_inst hinpos
  refine ⟨enhance_ok_intro ht (firstMissingField_none_of_marks hmo hpl hco),
    ?_, ?_, ?_⟩
  · rw [editLines, count_minOS_editPass, hPV]
    cases ha : has_min_os lines
    · have hc0 : countMarker "MinimumOSVersion:" lines = 0 := by
        rcases Nat.eq_zero_or_pos (countMarker "MinimumOSVersion:" lines)
          with h0 | hpos
        · exact h0
        · rw [has_min_os_iff.mpr hpos] at ha; cases ha
      simp only [if_neg Bool.false_ne_true]
      omega
    · have := has_min_os_iff.mp ha
      simp only [if_pos trivial]
      omega
  · rw [editLines, count_platform_editPass, hPV]
    cases hb : has_platform lines
    · have hc0 : countMarker "Platform:" lines = 0 := by
        rcases Nat.eq_zero_or_pos (countMarker "Platform:" lines)
          with h0 | hpos
        · exact h0
        · rw [has_platform_iff.mpr hpos] at hb; cases hb
      simp only [if_neg Bool.false_ne_true]
      omega
    · have := has_platform_iff.mp hb
      simp only [if_pos trivial]
      omega
  · rw [editLines, count_commands_editPass, hIn]
    cases hc : has_commands lines
    · have hc0 : countMarker "Commands:" lines = 0 := by
        rcases Nat.eq_zero_or_pos (countMarker "Commands:" lines)
          with h0 | hpos
        · exact h0
        · rw [has_commands_iff.mpr hpos] at hc; cases hc
      simp only [if_neg Bool.false_ne_true]
      omega
    · have := has_commands_iff.mp hc
      simp only [if_pos trivial]
      omega

theorem completeness_amended_witness :
    enhance ["ManifestType: installer\n", "PackageVersion: 1.2.3\n",
        "Installers:\n", "- Arch: x64\n"] =
      Except.ok (editLines ["ManifestType: installer\n",
        "PackageVersion: 1.2.3\n", "Installers:\n", "- Arch: x64\n"]) ∧
      countMarker "MinimumOSVersion:"
        (editLines ["ManifestType: installer\n", "PackageVersion: 1.2.3\n",
          "Installers:\n", "- Arch: x64\n"]) = 1 ∧
      countMarker "Platform:"
        (editLines ["ManifestType: installer\n", "PackageVersion: 1.2.3\n",
          "Installers:\n", "- Arch: x64\n"]) = 1 ∧
      countMarker "Commands:"
        (editLines ["ManifestType: installer\n", "PackageVersion: 1.2.3\n",
          "Installers:\n", "- Arch: x64\n"]) = 1 :=
  completeness_amended (by decide) (by decide) (by decide) (by decide)
    (by decide) (by decide)

/-- C5, counterexample: a manifest with a `ManifestType: installer` line, no
`PackageVersion:` line, and neither `MinimumOSVersion:` nor `Platform:`
present as a line prefix, on which `enhance` nevertheless succeeds with
exit status `0` (all three markers occur mid-line, so the substring-based
validation passes), contradicting the claimed non-zero exit. -/
theorem missing_anchor_counterexample :
    (has_manifest_type ["ManifestType: installer\n",
        "x MinimumOSVersion: Platform: Commands: y\n"] = true ∧
      countMarker "PackageVersion:" ["ManifestType: installer\n",
        "x MinimumOSVersion: Platform: Commands: y\n"] = 0 ∧
      has_min_os ["ManifestType: installer\n",
        "x MinimumOSVersion: Platform: Commands: y\n"] = false ∧
      has_platform ["ManifestType: installer\n",
        "x MinimumOSVersion: Platform: Commands: y\n"] = false) ∧
    runEnhance ["ManifestType: installer\n",
        "x MinimumOSVersion: Platform: Commands: y\n"] =
      (0, ["ManifestType: installer\n",
        "x MinimumOSVersion: Platform: Commands: y\n"]) :=
  ⟨⟨by decide, by decide, by decide, by decide⟩, by rfl⟩

/-- C5, amended: for every manifest of newline-terminated lines that
contains a `ManifestType: installer` line, has no `PackageVersion:` line,
and in which neither `MinimumOSVersion:` nor `Platform:` occurs as a
substring of any line, `enhance` fails with the anchor-not-found error
naming the missing field `MinimumOSVersion:`, the process exits non-zero,
and the file content is unmodified. -/
theorem missing_anchor_amended {lines : List String}
    (ht : has_manifest_type lines = true)
    (hpv : countMarker "PackageVersion:" lines = 0)
    (hnl : ∀ l ∈ lines, l.data.getLast? = some ('\n'))
    (hmo : ∀ l ∈ lines, ¬ ("MinimumOSVersion:").data <:+: l.data)
    (_hpl : ∀ l ∈ lines, ¬ ("Platform:").data <:+: l.data) :
    enhance lines =
        Except.error (EnhanceError.anchorNotFound "MinimumOSVersion:") ∧
      runEnhance lines = (1, lines) := by
  have hpv_all : ∀ l ∈ lines, startswith l "PackageVersion:" = false := by
    intro l hl
    have := (List.countP_eq_zero.mp hpv) l hl
    simpa using this
  have hmem : ∀ l ∈ editLines lines,
      l ∈ lines ∨ l ∈ insBeforeInstallers (has_commands lines) :=
    fun l hl => mem_editPass_no_pv hpv_all hl
  have hout_nl : ∀ l ∈ editLines lines, l.data.getLast? = some ('\n') := by
    intro l hl
    rcases hmem l hl with hm | hm
    · exact hnl l hm
    · rcases mem_insBeforeInstallers hm with rfl | rfl <;> decide
  have hout_no : ∀ l ∈ editLines lines,
      ¬ ("MinimumOSVersion:").data <:+: l.data := by
    intro l hl
    rcases hmem l hl with hm | hm
    · exact hmo l hm
    · rcases mem_insBeforeInstallers hm with rfl | rfl <;> decide
  have hfalse : fieldInText "MinimumOSVersion:" (editLines lines) = false := by
    cases hb : fieldInText "MinimumOSVersion:" (editLines lines)
    · rfl
    · exact absurd (fieldInText_iff.mp hb)
        (not_infix_textOf (by decide) (by decide) hout_nl hout_no)
  have hmiss : firstMissingField (editLines lines) =
      some "MinimumOSVersion:" := by
    simp [firstMissingField, requiredFields, List.find?, hfalse]
  have he : enhance lines =
      Except.error (EnhanceError.anchorNotFound "MinimumOSVersion:") := by
    unfold enhance
    rw [if_pos ht, hmiss]
  exact ⟨he, by unfold runEnhance; rw [he]⟩

theorem missing_anchor_amended_witness :
    enhance ["ManifestType: installer\n", "Installers:\n"] =
        Except.error (EnhanceError.anchorNotFound "MinimumOSVersion:") ∧
      runEnhance ["ManifestType: installer\n", "Installers:\n"] =
        (1, ["ManifestType: installer\n", "Installers:\n"]) :=
  missing_anchor_amended (by decide) (by decide) (by decide) (by decide)
    (by decide)

/-- C10 (implicit): the post-edit validation succeeds exactly when each of
the three required field markers occurs as a substring anywhere in the
concatenated output text, while the presence flags require the marker as a
line prefix; consequently, on a manifest whose `Commands:` marker occurs
only indented and whose `Installers:` anchor is absent, validation passes
and the file is written with no line starting with `Commands:`. -/
theorem validation_uses_substrings :
    (∀ result : List String,
      (firstMissingField result = none ↔
        requiredFields.all (fun field => fieldInText field result) = true)) ∧
    runEnhance ["ManifestType: installer\n", "PackageVersion: 1.2.3\n",
        "  Commands: demo\n"] =
      (0, ["ManifestType: installer\n", "PackageVersion: 1.2.3\n",
        "MinimumOSVersion: 10.0.17763.0\n", "Platform:\n",
        "  - Windows.Desktop\n", "  Commands: demo\n"]) ∧
    has_commands ["ManifestType: installer\n", "PackageVersion: 1.2.3\n",
        "MinimumOSVersion: 10.0.17763.0\n", "Platform:\n",
        "  - Windows.Desktop\n", "  Commands: demo\n"] = false := by
  refine ⟨?_, by rfl, by decide⟩
  intro result
  rw [firstMissingField_eq_none, List.all_eq_true]

end EnhanceWinget
